import Mathlib

/-!
Verification of the DayOneJSONtoHTML converter (src/DayOneJSONtoHTML.py)
against its natural-language specification.

The development shallowly embeds the Python source:

* `normalize_list_boundaries`  — lines 8-24 of the source, the
  list-boundary normalizer (split into `splitlines`, `normLoop`,
  `ensureTrailing`, `joinLines`);
* the per-entry date resolution of `convert_dayone_json_to_single_html`
  (lines 42-63) — `parseTimestamp`, `formatEntryDate`;
* the location line (lines 76-93) — `locationDisplay`;
* the weather line (lines 94-106) — `weatherLine`;
* the photo resolution loop (lines 117-138) — `resolvePhoto`;
* the date-range heading (lines 183-187) — `dateRangeStr`.

External effects are injected as parameters: the `pytz` timezone
database becomes a function `String → Option (Int → Int)` (identifier →
UTC-offset-in-seconds as a function of the instant, `none` for
`UnknownTimeZoneError`), and `os.path.exists` becomes a predicate
`String → Bool`.
-/

/-- Python whitespace, as matched both by `str.strip()` (used for the
blank-line test `line.strip() == ""` on line 20) and by the regex class
`\s` (used in the list-marker regex on line 13).  These agree in Python:
both are the Unicode whitespace characters.  Characters are compared by
code point. -/
def pyIsSpace (c : Char) : Bool :=
  let n := c.toNat
  (9 ≤ n && n ≤ 13) || n == 32 || (28 ≤ n && n ≤ 31) || n == 0x85 ||
    n == 0xa0 || n == 0x1680 || (0x2000 ≤ n && n ≤ 0x200a) ||
    n == 0x2028 || n == 0x2029 || n == 0x202f || n == 0x205f || n == 0x3000

/-- The characters at which Python `str.splitlines()` (source line 9)
breaks a string: \n, \r (with \r\n as one break), \v, \f, the file/group/
record separators 0x1c-0x1e, NEL 0x85, and the Unicode line/paragraph
separators 0x2028/0x2029. -/
def isLineBreakChar (c : Char) : Bool :=
  let n := c.toNat
  n == 10 || n == 13 || n == 11 || n == 12 || n == 28 || n == 29 ||
    n == 30 || n == 0x85 || n == 0x2028 || n == 0x2029

/-- Worker for `splitlines`: consumes characters, accumulating the
current line (reversed) in `acc`; a line break emits the line, \r\n
counting as a single break; a trailing break emits no empty final line,
exactly as Python `str.splitlines()`. -/
def splitlinesAux : List Char → List Char → List (List Char)
  | [], acc => if acc.isEmpty then [] else [acc.reverse]
  | '\r' :: '\n' :: rest, acc => acc.reverse :: splitlinesAux rest []
  | c :: rest, acc =>
    if isLineBreakChar c then acc.reverse :: splitlinesAux rest []
    else splitlinesAux rest (c :: acc)

/-- Embedding of Python `md_text.splitlines()` (source line 9). -/
def splitlines (s : String) : List String :=
  (splitlinesAux s.data []).map String.mk

/-- Embedding of the blank-line test `line.strip() == ""` (source
line 20): true iff every character of the line is whitespace. -/
def isBlank (l : String) : Bool :=
  l.data.all pyIsSpace

/-- Embedding of the list-marker regex
`re.compile(r'^\s*(?:[-+*]|[0-9]+[.)])\s+')` matched with `.match`
(source lines 13-15): after leading whitespace, either an unordered
marker `-`, `+`, `*` or one-or-more digits followed by `.` or `)`, and
then at least one whitespace character. -/
def isListItem (l : String) : Bool :=
  match l.data.dropWhile pyIsSpace with
  | [] => false
  | c :: rest =>
    if c = '-' ∨ c = '+' ∨ c = '*' then
      match rest with
      | [] => false
      | w :: _ => pyIsSpace w
    else if c.isDigit then
      match (c :: rest).dropWhile Char.isDigit with
      | [] => false
      | p :: rest2 =>
        if p = '.' ∨ p = ')' then
          match rest2 with
          | [] => false
          | w :: _ => pyIsSpace w
        else false
    else false

/-- The main loop of `normalize_list_boundaries` (source lines 14-20):
walks the lines carrying `prev_blank` (whether the previously emitted
line was blank, initially true), and inserts one empty line before any
list item that follows a non-blank line. -/
def normLoop : Bool → List String → List String
  | _, [] => []
  | prevBlank, l :: rest =>
    (if isListItem l && !prevBlank then ["", l] else [l]) ++
      normLoop (isBlank l) rest

/-- The trailing fix of `normalize_list_boundaries` (source lines
22-23): `if out and out[-1] != "": out.append("")` — append one empty
line when the list is nonempty and its last element is not the empty
string.  Written as structural recursion to the last element. -/
def ensureTrailing : List String → List String
  | [] => []
  | [l] => if l = "" then [l] else [l, ""]
  | l :: l2 :: rest => l :: ensureTrailing (l2 :: rest)

/-- Embedding of `"\n".join(out)` (source line 24). -/
def joinLines : List String → String
  | [] => ""
  | [l] => l
  | l :: l2 :: rest => l ++ "\n" ++ joinLines (l2 :: rest)

/-- Embedding of `normalize_list_boundaries` (source lines 8-24). -/
def normalize_list_boundaries (s : String) : String :=
  joinLines (ensureTrailing (normLoop true (splitlines s)))

-- Sanity checks: the embedding evaluated at concrete inputs.
example : splitlines "a\nb" = ["a", "b"] := by decide
example : splitlines "a\n" = ["a"] := by decide
example : splitlines "" = [] := by decide
example : splitlines "\n" = [""] := by decide
example : splitlines "a\r\nb" = ["a", "b"] := by decide
example : isListItem "- x" = true := by decide
example : isListItem "  12) x" = true := by decide
example : isListItem "12x" = false := by decide
example : isListItem "-x" = false := by decide
example : isBlank "  " = true := by decide
example : normalize_list_boundaries "text\n- a" = "text\n\n- a\n" := by decide
example : normalize_list_boundaries "\n\n" = "\n" := by decide
example : normalize_list_boundaries "\n" = "" := by decide
example : normalize_list_boundaries "a\n\n\n" = "a\n\n" := by decide
example : normalize_list_boundaries "a\n\n" = "a\n" := by decide

/-- A parsed civil date-time, the result of a successful
`datetime.strptime(date_str, "%Y-%m-%dT%H:%M:%SZ")` (source line 45). -/
structure CivilDT where
  year : Nat
  month : Nat
  day : Nat
  hour : Nat
  minute : Nat
  second : Nat
deriving DecidableEq

/-- Gregorian leap-year rule, as used by `datetime`. -/
def isLeapYear (y : Nat) : Bool :=
  (y % 4 == 0 && y % 100 != 0) || y % 400 == 0

/-- Days in a month, as validated by the `datetime` constructor. -/
def daysInMonth (y m : Nat) : Nat :=
  if m = 2 then (if isLeapYear y then 29 else 28)
  else if m = 4 ∨ m = 6 ∨ m = 9 ∨ m = 11 then 30
  else 31

/-- Numeric value of a decimal digit character. -/
def digitVal (c : Char) : Nat :=
  c.toNat - 48

/-- Exactly four decimal digits, as matched by the strptime directive
`%Y` (regex `\d\d\d\d`). -/
def parse4 : List Char → Option (Nat × List Char)
  | a :: b :: c :: d :: rest =>
    if a.isDigit && b.isDigit && c.isDigit && d.isDigit then
      some (((digitVal a * 10 + digitVal b) * 10 + digitVal c) * 10 + digitVal d, rest)
    else none
  | _ => none

/-- One or two decimal digits, as matched by the strptime directives
`%m`, `%d`, `%H`, `%M`, `%S`.  Their regexes prefer a two-digit match
(validated by `valid2`) and fall back to a single digit (validated by
`valid1`).  When two digits are available but form an invalid two-digit
value, backtracking to one digit always fails afterwards, because the
next character is then a digit while the format expects a separator
letter — so returning `none` there is faithful. -/
def parse2or1 (valid2 valid1 : Nat → Bool) : List Char → Option (Nat × List Char)
  | [] => none
  | c1 :: rest1 =>
    if !c1.isDigit then none
    else
      match rest1 with
      | c2 :: rest2 =>
        if c2.isDigit then
          let v := digitVal c1 * 10 + digitVal c2
          if valid2 v then some (v, rest2) else none
        else if valid1 (digitVal c1) then some (digitVal c1, rest1) else none
      | [] => if valid1 (digitVal c1) then some (digitVal c1, rest1) else none

/-- A literal character of the strptime format.  Python compiles the
format regex with `re.IGNORECASE`, so the literals `T` and `Z` also
match their lowercase forms. -/
def expectCI (c : Char) : List Char → Option (List Char)
  | [] => none
  | x :: rest => if x.toLower = c.toLower then some rest else none

/-- Embedding of `datetime.strptime(date_str, "%Y-%m-%dT%H:%M:%SZ")`
(source line 45).  Follows CPython `_strptime`: `%Y` is exactly four
digits; `%m`/`%d` are one or two digits with values 1-12 / 1-31; `%H`
is 0-23; `%M` 0-59; `%S` 0-61 at the regex, but seconds 60 and 61 (and
a day beyond the month's length) then make the `datetime` constructor
raise, which the caller's `except` treats the same as a parse failure —
so they yield `none` here.  The whole string must be consumed. -/
def parseTimestamp (s : String) : Option CivilDT := do
  let cs := s.data
  let (y, cs) ← parse4 cs
  let cs ← expectCI '-' cs
  let (mo, cs) ← parse2or1 (fun v => 1 ≤ v && v ≤ 12) (fun v => 1 ≤ v) cs
  let cs ← expectCI '-' cs
  let (d, cs) ← parse2or1 (fun v => 1 ≤ v && v ≤ 31) (fun v => 1 ≤ v) cs
  let cs ← expectCI 'T' cs
  let (h, cs) ← parse2or1 (fun v => v ≤ 23) (fun _ => true) cs
  let cs ← expectCI ':' cs
  let (mi, cs) ← parse2or1 (fun v => v ≤ 59) (fun _ => true) cs
  let cs ← expectCI ':' cs
  let (sec, cs) ← parse2or1 (fun v => v ≤ 61) (fun _ => true) cs
  let cs ← expectCI 'Z' cs
  if cs = [] ∧ 1 ≤ y ∧ d ≤ daysInMonth y mo ∧ sec ≤ 59 then
    some ⟨y, mo, d, h, mi, sec⟩
  else none

/-- Days since 1970-01-01 of a civil date (proleptic Gregorian),
standard era-based computation with floor division. -/
def civilToDays (y m d : Nat) : Int :=
  let yi : Int := (y : Int) - (if m ≤ 2 then 1 else 0)
  let era : Int := Int.fdiv yi 400
  let yoe : Int := yi - era * 400
  let mp : Int := (m : Int) + (if m > 2 then -3 else 9)
  let doy : Int := Int.fdiv (153 * mp + 2) 5 + (d : Int) - 1
  let doe : Int := yoe * 365 + Int.fdiv yoe 4 - Int.fdiv yoe 100 + doy
  era * 146097 + doe - 719468

/-- Civil date from days since 1970-01-01 (inverse of `civilToDays`). -/
def daysToCivil (z0 : Int) : Nat × Nat × Nat :=
  let z := z0 + 719468
  let era : Int := Int.fdiv z 146097
  let doe : Int := z - era * 146097
  let yoe : Int := Int.fdiv (doe - Int.fdiv doe 1460 + Int.fdiv doe 36524 - Int.fdiv doe 146096) 365
  let y : Int := yoe + era * 400
  let doy : Int := doe - (365 * yoe + Int.fdiv yoe 4 - Int.fdiv yoe 100)
  let mp : Int := Int.fdiv (5 * doy + 2) 153
  let d : Int := doy - Int.fdiv (153 * mp + 2) 5 + 1
  let m : Int := mp + (if mp < 10 then 3 else -9)
  let yr : Int := y + (if m ≤ 2 then 1 else 0)
  (yr.toNat, m.toNat, d.toNat)

/-- UTC epoch seconds of a parsed timestamp — the instant the aware
datetime of source lines 45-48 denotes. -/
def epochOf (c : CivilDT) : Int :=
  civilToDays c.year c.month c.day * 86400 +
    (c.hour : Int) * 3600 + (c.minute : Int) * 60 + (c.second : Int)

/-- An element of the `dates` list (source line 57): an aware local
datetime, recorded as its UTC instant (`epoch`, seconds since
1970-01-01T00:00:00Z) plus the `utcoffset` in seconds of its timezone
at that instant.  Aware datetimes compare by instant, so `epoch` is the
comparison key for `min`/`max` on line 185-186. -/
structure LocalDT where
  epoch : Int
  off : Int
deriving DecidableEq

/-- The civil wall-clock fields of a `LocalDT`, i.e. what `strftime`
formats after `astimezone` (source lines 55-60). -/
def localCivil (t : LocalDT) : CivilDT :=
  let loc := t.epoch + t.off
  let days := Int.fdiv loc 86400
  let sod := (Int.fmod loc 86400).toNat
  let (y, m, d) := daysToCivil days
  ⟨y, m, d, sod / 3600, sod % 3600 / 60, sod % 60⟩

/-- English month abbreviations of `strftime` directive `%b` in the C
locale. -/
def monthAbbrev : Nat → String
  | 1 => "Jan" | 2 => "Feb" | 3 => "Mar" | 4 => "Apr" | 5 => "May"
  | 6 => "Jun" | 7 => "Jul" | 8 => "Aug" | 9 => "Sep" | 10 => "Oct"
  | 11 => "Nov" | 12 => "Dec" | _ => ""

/-- Zero-padding to two digits (`%d`, `%I`, `%M`). -/
def pad2 (n : Nat) : String :=
  if n < 10 then "0" ++ toString n else toString n

/-- Hour on the 12-hour clock (`%I`): 12 for 0 and 12. -/
def hour12 (h : Nat) : Nat :=
  if h % 12 = 0 then 12 else h % 12

/-- The AM/PM marker (`%p`). -/
def amPm (h : Nat) : String :=
  if h < 12 then "AM" else "PM"

/-- Embedding of `local_date.strftime("%d %b %Y %I:%M %p")` (source
line 60). -/
def strftimeDisplay (c : CivilDT) : String :=
  pad2 c.day ++ " " ++ monthAbbrev c.month ++ " " ++ toString c.year ++ " " ++
    pad2 (hour12 c.hour) ++ ":" ++ pad2 c.minute ++ " " ++ amPm c.hour

/-- Embedding of `strftime('%d %b %Y')` (source line 187). -/
def strftimeDMY (c : CivilDT) : String :=
  pad2 c.day ++ " " ++ monthAbbrev c.month ++ " " ++ toString c.year

/-- Embedding of the date-resolution block of the entry loop (source
lines 42-63) plus the `dates.append` on line 57.  The `pytz` timezone
database is the injected `tzdb`: `tzdb name = none` models
`pytz.timezone(name)` raising `UnknownTimeZoneError`, and `some rule`
gives the zone's UTC offset in seconds as a function of the UTC
instant (how `astimezone` applies a DST-aware zone).  Returns the
display string `date_fmt` and, when the `try` block completed, the
appended aware datetime; `none` models the entry being absent from
`dates`.  The function is total: the `except Exception` arm is the
`(dateStr, none)` fallback, so no exception escapes. -/
def formatEntryDate (tzdb : String → Option (Int → Int)) (dateStr : String)
    (timeZone : Option String) : String × Option LocalDT :=
  match parseTimestamp dateStr with
  | none => (dateStr, none)
  | some civ =>
    let ep := epochOf civ
    let utc : LocalDT := ⟨ep, 0⟩
    let utcRes := (strftimeDisplay (localCivil utc), some utc)
    match timeZone with
    | none => utcRes
    | some tzName =>
      if tzName = "" then utcRes
      else
        match tzdb tzName with
        | none => (dateStr, none)
        | some rule =>
          let dt : LocalDT := ⟨ep, rule ep⟩
          (strftimeDisplay (localCivil dt), some dt)

/-- The `dates` list accumulated over the entry loop (source lines
36-57): one `LocalDT` per entry whose date resolution succeeded, in
entry order.  An entry is its `creationDate` string and optional
`timeZone`. -/
def collectDates (tzdb : String → Option (Int → Int))
    (entries : List (String × Option String)) : List LocalDT :=
  entries.filterMap (fun e => (formatEntryDate tzdb e.1 e.2).2)

/-- Python `min(dates)` over aware datetimes: fold keeping the first
strictly-smallest element by instant. -/
def pyMinAux (best : LocalDT) : List LocalDT → LocalDT
  | [] => best
  | d :: rest => pyMinAux (if d.epoch < best.epoch then d else best) rest

/-- Python `max(dates)`: fold keeping the first strictly-largest
element by instant. -/
def pyMaxAux (best : LocalDT) : List LocalDT → LocalDT
  | [] => best
  | d :: rest => pyMaxAux (if best.epoch < d.epoch then d else best) rest

/-- Embedding of the date-range heading (source lines 183-187):
`min`/`max` of `dates` when nonempty, otherwise the fixed fallback
phrase. -/
def dateRangeStr (dates : List LocalDT) : String :=
  match dates with
  | [] => "No date information"
  | d :: rest =>
    "from " ++ strftimeDMY (localCivil (pyMinAux d rest)) ++
      " to " ++ strftimeDMY (localCivil (pyMaxAux d rest))

-- Sanity checks: the embedding evaluated at concrete inputs.
example : parseTimestamp "2023-10-05T14:30:00Z" = some ⟨2023, 10, 5, 14, 30, 0⟩ := by decide
example : parseTimestamp "not-a-date" = none := by decide
example : parseTimestamp "2023-10-05T14:30:00" = none := by decide
example : parseTimestamp "2023-02-30T14:30:00Z" = none := by decide
example : parseTimestamp "2023-1-5t4:3:2z" = some ⟨2023, 1, 5, 4, 3, 2⟩ := by decide
example : epochOf ⟨2023, 10, 5, 14, 30, 0⟩ = 1696516200 := by decide
example : epochOf ⟨1970, 1, 1, 0, 0, 0⟩ = 0 := by decide
example : strftimeDisplay (localCivil ⟨1696516200, 0⟩) = "05 Oct 2023 02:30 PM" := by decide
example : strftimeDisplay (localCivil ⟨1696516200, -14400⟩) = "05 Oct 2023 10:30 AM" := by decide
example : strftimeDMY (localCivil ⟨1696516200, 0⟩) = "05 Oct 2023" := by decide

/-- Python truthiness of an optional JSON number (`if lat and lng:`,
source line 85): absent and zero are falsy.  JSON numbers are modeled
as rationals (JSON cannot express NaN, the one float whose truthiness
differs from `≠ 0`). -/
def pyTruthyNum : Option Rat → Bool
  | none => false
  | some x => !(x == 0)

/-- Python truthiness of an optional string: absent and empty are
falsy. -/
def strTruthy : Option String → Bool
  | none => false
  | some s => !(s == "")

/-- Embedding of the location block (source lines 76-93).  `none`
models `location_html = ""` (the empty location line); `some t` models
the emitted map hyperlink, whose display text `t` is
`", ".join([x for x in [place, locality, country] if x])` and whose
href carries the two coordinates.  Absent `location` key and absent
name fields are the defaults `{}` / `""` of the `.get` calls. -/
def locationDisplay (lat lng : Option Rat) (place locality country : String) :
    Option String :=
  if pyTruthyNum lat && pyTruthyNum lng then
    some (String.intercalate ", " (List.filter (fun x => !(x == "")) [place, locality, country]))
  else none

/-- Round ten times a rational to the nearest integer, ties to even —
the rounding of `%.1f`-style formatting, computed on numerator and
denominator with integer arithmetic.  (Python formats an IEEE double;
this agrees whenever the value is exactly representable at one decimal,
which covers all inputs the claims exercise.) -/
def roundTenths (t : Rat) : Int :=
  let num : Int := 10 * t.num
  let den : Int := (t.den : Int)
  let f : Int := Int.fdiv num den
  let r2 : Int := 2 * (num - f * den)
  if r2 < den then f
  else if den < r2 then f + 1
  else if f % 2 = 0 then f else f + 1

/-- Embedding of the temperature formatting `f"{wx_temp:.1f}"` (source
lines 100-102): one decimal place, with the sign of a negative value
kept even when it rounds to -0.0 (`t.num < 0` is `t < 0`, the
denominator being positive). -/
def fmtTemp1 (t : Rat) : String :=
  let n := roundTenths t
  let sign := if n < 0 ∨ (n = 0 ∧ t.num < 0) then "-" else ""
  let a := n.natAbs
  sign ++ toString (a / 10) ++ "." ++ toString (a % 10)

/-- Embedding of the weather block (source lines 94-106): the if/elif
chain on `wx_temp is not None` and the truthiness of
`wx_description`. -/
def weatherLine (temp : Option Rat) (desc : Option String) : String :=
  match temp with
  | some t =>
    if strTruthy desc then fmtTemp1 t ++ "°C, " ++ desc.getD ""
    else fmtTemp1 t ++ "°C"
  | none =>
    if strTruthy desc then desc.getD "" else ""

/-- Python `photo.get("md5") or photo.get("identifier")` (source line
119): the first operand unless it is falsy (absent or empty). -/
def orFalsy (a b : Option String) : Option String :=
  match a with
  | some s => if s = "" then b else some s
  | none => b

/-- Python `if filename:` (source line 120): collapse a falsy value to
`none`. -/
def truthyStr : Option String → Option String
  | none => none
  | some s => if s = "" then none else some s

/-- The extension loop of the photo block (source lines 121-138): try
each candidate path in order, return the first for which the injected
`os.path.exists` predicate holds, stopping at the `break`. -/
def firstExisting (ex : String → Bool) : List String → Option String
  | [] => none
  | p :: rest => if ex p then some p else firstExisting ex rest

/-- The candidate paths `os.path.join(photos_dir, filename + ext)` for
`ext` in `[".jpg", ".jpeg", ".png"]`, in that order (source lines
121-122).  `os.path.join` is modeled as separator concatenation, exact
for the relative directory names the converter uses. -/
def photoCandidates (photosDir fn : String) : List String :=
  [photosDir ++ "/" ++ fn ++ ".jpg",
   photosDir ++ "/" ++ fn ++ ".jpeg",
   photosDir ++ "/" ++ fn ++ ".png"]

/-- Embedding of the per-photo resolution (source lines 117-138):
identifier selection by `md5 or identifier`, skip when falsy, then the
first existing candidate extension.  `some path` models the appended
`<img>` block for `path`; `none` models the photo contributing nothing
to `media_html`. -/
def resolvePhoto (ex : String → Bool) (photosDir : String)
    (md5 ident : Option String) : Option String :=
  match truthyStr (orFalsy md5 ident) with
  | none => none
  | some fn => firstExisting ex (photoCandidates photosDir fn)

-- Sanity checks: the embedding evaluated at concrete inputs.
example : locationDisplay (some 1) (some 2) "Paris" "" "France" = some "Paris, France" := by decide
example : locationDisplay none (some 2) "Paris" "" "France" = none := by decide
example : fmtTemp1 21 = "21.0" := by decide
example : fmtTemp1 (Rat.mk' (-37) 10 (by decide) (by decide)) = "-3.7" := by decide
example : weatherLine (some 21) (some "Clear") = "21.0°C, Clear" := by decide
example : weatherLine (some 21) none = "21.0°C" := by decide
example : weatherLine none (some "Clear") = "Clear" := by decide
example : weatherLine none none = "" := by decide
example : resolvePhoto (fun p => p == "photos/abc.png") "photos" (some "abc") none = some "photos/abc.png" := by decide
example : resolvePhoto (fun _ => true) "photos" (some "") (some "id2") = some "photos/id2.jpg" := by decide
example : resolvePhoto (fun _ => true) "photos" none none = none := by decide

/-- Modelled from the spec: a one-zone timezone database for the
examples — `America/New_York` at UTC offset -4h (Eastern daylight
time, in force at the spec's sample instant 2023-10-05T14:30:00Z).
The real database is the external `pytz` library, out of scope, so it
is injected; theorems quantify over the database and only the sample
evaluations use this one. -/
def tzdbSample : String → Option (Int → Int) :=
  fun z => if z = "America/New_York" then some (fun _ => -14400) else none

theorem firstExisting_eq_findP (ex : String → Bool) :
    ∀ l : List String, firstExisting ex l = List.find? ex l := by
  intro l
  induction l with
  | nil => rfl
  | cons p rest ih =>
    by_cases h : ex p <;> simp [firstExisting, List.find?_cons, h, ih]

theorem pyMinAux_le (l : List LocalDT) : ∀ best d : LocalDT, (d = best ∨ d ∈ l) →
    (pyMinAux best l).epoch ≤ d.epoch := by
  induction l with
  | nil =>
    rintro best d (rfl | h)
    · simp [pyMinAux]
    · cases h
  | cons c l ih =>
    rintro best d hd
    have hstep : pyMinAux best (c :: l) =
        pyMinAux (if c.epoch < best.epoch then c else best) l := rfl
    have hle : (if c.epoch < best.epoch then c else best).epoch ≤ best.epoch := by
      by_cases h : c.epoch < best.epoch <;> simp [h]
      omega
    have hlec : (if c.epoch < best.epoch then c else best).epoch ≤ c.epoch := by
      by_cases h : c.epoch < best.epoch <;> simp [h]
      omega
    have hres := ih (if c.epoch < best.epoch then c else best)
      (if c.epoch < best.epoch then c else best) (Or.inl rfl)
    rcases hd with rfl | hd
    · rw [hstep]; exact le_trans hres hle
    · rcases List.mem_cons.mp hd with rfl | hd
      · rw [hstep]; exact le_trans hres hlec
      · rw [hstep]; exact ih _ d (Or.inr hd)

theorem pyMinAux_mem (l : List LocalDT) : ∀ best,
    pyMinAux best l = best ∨ pyMinAux best l ∈ l := by
  induction l with
  | nil => intro best; exact Or.inl rfl
  | cons c l ih =>
    intro best
    have hstep : pyMinAux best (c :: l) =
        pyMinAux (if c.epoch < best.epoch then c else best) l := rfl
    rw [hstep]
    rcases ih (if c.epoch < best.epoch then c else best) with h | h
    · by_cases hc : c.epoch < best.epoch
      · rw [h, if_pos hc]; exact Or.inr (List.mem_cons_self c l)
      · rw [h, if_neg hc]; exact Or.inl rfl
    · exact Or.inr (List.mem_cons_of_mem c h)

theorem pyMaxAux_ge (l : List LocalDT) : ∀ best d : LocalDT, (d = best ∨ d ∈ l) →
    d.epoch ≤ (pyMaxAux best l).epoch := by
  induction l with
  | nil =>
    rintro best d (rfl | h)
    · simp [pyMaxAux]
    · cases h
  | cons c l ih =>
    rintro best d hd
    have hstep : pyMaxAux best (c :: l) =
        pyMaxAux (if best.epoch < c.epoch then c else best) l := rfl
    have hle : best.epoch ≤ (if best.epoch < c.epoch then c else best).epoch := by
      by_cases h : best.epoch < c.epoch <;> simp [h]
      omega
    have hlec : c.epoch ≤ (if best.epoch < c.epoch then c else best).epoch := by
      by_cases h : best.epoch < c.epoch <;> simp [h]
      omega
    have hres := ih (if best.epoch < c.epoch then c else best)
      (if best.epoch < c.epoch then c else best) (Or.inl rfl)
    rcases hd with rfl | hd
    · rw [hstep]; exact le_trans hle hres
    · rcases List.mem_cons.mp hd with rfl | hd
      · rw [hstep]; exact le_trans hlec hres
      · rw [hstep]; exact ih _ d (Or.inr hd)

theorem pyMaxAux_mem (l : List LocalDT) : ∀ best,
    pyMaxAux best l = best ∨ pyMaxAux best l ∈ l := by
  induction l with
  | nil => intro best; exact Or.inl rfl
  | cons c l ih =>
    intro best
    have hstep : pyMaxAux best (c :: l) =
        pyMaxAux (if best.epoch < c.epoch then c else best) l := rfl
    rw [hstep]
    rcases ih (if best.epoch < c.epoch then c else best) with h | h
    · by_cases hc : best.epoch < c.epoch
      · rw [h, if_pos hc]; exact Or.inr (List.mem_cons_self c l)
      · rw [h, if_neg hc]; exact Or.inl rfl
    · exact Or.inr (List.mem_cons_of_mem c h)

/-- C2: for every entry whose creation-timestamp string does not parse
under the fixed pattern YYYY-MM-DDTHH:MM:SSZ, the metadata resolver
emits the raw timestamp string verbatim as the display value and
excludes the entry from date-range computation (second component
`none` = not appended to `dates`); `formatEntryDate` being a total
function, no exception escapes — the `except` arm is this fallback. -/
theorem C2_malformed_timestamp_fallback (tzdb : String → Option (Int → Int))
    (dateStr : String) (timeZone : Option String)
    (h : parseTimestamp dateStr = none) :
    formatEntryDate tzdb dateStr timeZone = (dateStr, none) := by
  simp [formatEntryDate, h]

theorem C2_witness :
    parseTimestamp "not-a-date" = none ∧
      formatEntryDate (fun _ => none) "not-a-date" (some "America/New_York") =
        ("not-a-date", none) :=
  ⟨by decide, C2_malformed_timestamp_fallback (fun _ => none) "not-a-date"
    (some "America/New_York") (by decide)⟩

/-- C3 (amended): for every entry with a well-formed UTC creation
timestamp, (1) if a timezone identifier is present, non-empty and
resolvable, the displayed date/time is the UTC instant converted to
that zone (offset `rule (epochOf civ)`); (2) if the identifier is
absent or empty, the display keeps UTC; (3) if the identifier is
present and non-empty but unresolvable, the resolver does NOT keep
UTC: `pytz.timezone` raises, the `except` arm emits the raw timestamp
string verbatim and the entry is excluded from range computation. -/
theorem C3_timezone_conversion_amended (tzdb : String → Option (Int → Int))
    (dateStr : String) (timeZone : Option String) (civ : CivilDT)
    (h : parseTimestamp dateStr = some civ) :
    (∀ z rule, timeZone = some z → z ≠ "" → tzdb z = some rule →
        formatEntryDate tzdb dateStr timeZone =
          (strftimeDisplay (localCivil ⟨epochOf civ, rule (epochOf civ)⟩),
            some ⟨epochOf civ, rule (epochOf civ)⟩)) ∧
      ((timeZone = none ∨ timeZone = some "") →
        formatEntryDate tzdb dateStr timeZone =
          (strftimeDisplay (localCivil ⟨epochOf civ, 0⟩), some ⟨epochOf civ, 0⟩)) ∧
      (∀ z, timeZone = some z → z ≠ "" → tzdb z = none →
        formatEntryDate tzdb dateStr timeZone = (dateStr, none)) := by
  refine ⟨?_, ?_, ?_⟩
  · rintro z rule rfl hz hr
    simp [formatEntryDate, h, hz, hr]
  · rintro (rfl | rfl) <;> simp [formatEntryDate, h]
  · rintro z rfl hz hr
    simp [formatEntryDate, h, hz, hr]

/-- C3 counterexample: a well-formed timestamp with a present but
unresolvable timezone identifier is displayed as the raw string, not
as the UTC-formatted date/time the claim requires, and is excluded
from range computation. -/
theorem C3_counterexample :
    parseTimestamp "2023-10-05T14:30:00Z" = some ⟨2023, 10, 5, 14, 30, 0⟩ ∧
      (formatEntryDate (fun _ => none) "2023-10-05T14:30:00Z" (some "Mars/Phobos")).1 =
        "2023-10-05T14:30:00Z" ∧
      strftimeDisplay (localCivil ⟨epochOf ⟨2023, 10, 5, 14, 30, 0⟩, 0⟩) =
        "05 Oct 2023 02:30 PM" ∧
      (formatEntryDate (fun _ => none) "2023-10-05T14:30:00Z" (some "Mars/Phobos")).1 ≠
        strftimeDisplay (localCivil ⟨epochOf ⟨2023, 10, 5, 14, 30, 0⟩, 0⟩) ∧
      (formatEntryDate (fun _ => none) "2023-10-05T14:30:00Z" (some "Mars/Phobos")).2 =
        none := by
  refine ⟨by decide, by decide, by decide, by decide, by decide⟩

theorem C3_witness :
    formatEntryDate tzdbSample "2023-10-05T14:30:00Z" (some "America/New_York") =
      ("05 Oct 2023 10:30 AM", some ⟨1696516200, -14400⟩) := by
  have h := (C3_timezone_conversion_amended tzdbSample "2023-10-05T14:30:00Z"
      (some "America/New_York") ⟨2023, 10, 5, 14, 30, 0⟩ (by decide)).1
      "America/New_York" (fun _ => -14400) rfl (by decide) (by simp [tzdbSample])
  exact h.trans (by decide)

/-- C6: a map link is emitted only when both latitude and longitude
are present (truthy in the code, which entails present); its display
text is the comma-joined subset of the non-empty strings among place,
locality and country; and when latitude or longitude is absent the
location line is empty (`none`) whatever the name fields hold. -/
theorem C6_location_link (lat lng : Option Rat) (place locality country : String) :
    ((locationDisplay lat lng place locality country).isSome = true →
        lat.isSome = true ∧ lng.isSome = true) ∧
      (lat = none ∨ lng = none →
        locationDisplay lat lng place locality country = none) ∧
      (∀ t, locationDisplay lat lng place locality country = some t →
        t = String.intercalate ", "
          (List.filter (fun x => !(x == "")) [place, locality, country])) := by
  refine ⟨?_, ?_, ?_⟩
  · intro hs
    by_cases h1 : pyTruthyNum lat && pyTruthyNum lng
    · cases lat with
      | none => simp [pyTruthyNum] at h1
      | some a =>
        cases lng with
        | none => simp [pyTruthyNum] at h1
        | some b => exact ⟨rfl, rfl⟩
    · simp [locationDisplay, h1] at hs
  · rintro (rfl | rfl) <;> simp [locationDisplay, pyTruthyNum]
  · intro t ht
    by_cases h1 : pyTruthyNum lat && pyTruthyNum lng
    · simp [locationDisplay, h1] at ht; exact ht.symm
    · simp [locationDisplay, h1] at ht

theorem C6_witness :
    locationDisplay none (some 2) "Paris" "" "France" = none :=
  (C6_location_link none (some 2) "Paris" "" "France").2.1 (Or.inl rfl)

/-- C7: the weather display line is temperature to one decimal plus
a degree sign and ", " plus description when both are present
(description truthy, i.e. non-empty, per the code's test); temperature
to one decimal plus the unit when only the temperature is present; the
description alone when only the description is present; and empty when
neither is present. -/
theorem C7_weather_line (temp : Option Rat) (desc : Option String) :
    (∀ t d, temp = some t → desc = some d → d ≠ "" →
        weatherLine temp desc = fmtTemp1 t ++ "°C, " ++ d) ∧
      (∀ t, temp = some t → strTruthy desc = false →
        weatherLine temp desc = fmtTemp1 t ++ "°C") ∧
      (∀ d, temp = none → desc = some d → d ≠ "" → weatherLine temp desc = d) ∧
      (temp = none → strTruthy desc = false → weatherLine temp desc = "") := by
  refine ⟨?_, ?_, ?_, ?_⟩
  · rintro t d rfl rfl hd; simp [weatherLine, strTruthy, hd]
  · rintro t rfl hdesc; simp [weatherLine, hdesc]
  · rintro d rfl rfl hd; simp [weatherLine, strTruthy, hd]
  · rintro rfl hdesc; simp [weatherLine, hdesc]

theorem C7_witness : weatherLine (some 21) (some "Clear") = "21.0°C, Clear" := by
  have h := (C7_weather_line (some 21) (some "Clear")).1 21 "Clear" rfl rfl (by decide)
  exact h.trans (by decide)

/-- C8: the photo resolver uses the content-hash identifier (`md5`)
when truthy, otherwise the generic `identifier`; it tries the
candidate paths with extensions .jpg, .jpeg, .png in that order
against the injected existence predicate and selects exactly the first
existing one (`List.find?` over `photoCandidates`); and it contributes
nothing when no identifier is present or no candidate exists. -/
theorem C8_photo_resolution (ex : String → Bool) (dir : String)
    (md5 ident : Option String) :
    (truthyStr (orFalsy md5 ident) = none → resolvePhoto ex dir md5 ident = none) ∧
      (∀ s, md5 = some s → s ≠ "" →
        resolvePhoto ex dir md5 ident = List.find? ex (photoCandidates dir s)) ∧
      ((md5 = none ∨ md5 = some "") → ∀ s, ident = some s → s ≠ "" →
        resolvePhoto ex dir md5 ident = List.find? ex (photoCandidates dir s)) ∧
      (∀ s, truthyStr (orFalsy md5 ident) = some s →
        (∀ p ∈ photoCandidates dir s, ex p = false) →
        resolvePhoto ex dir md5 ident = none) := by
  refine ⟨?_, ?_, ?_, ?_⟩
  · intro h; simp [resolvePhoto, h]
  · rintro s rfl hs
    simp [resolvePhoto, orFalsy, truthyStr, hs, firstExisting_eq_findP]
  · rintro (rfl | rfl) s rfl hs <;>
      simp [resolvePhoto, orFalsy, truthyStr, hs, firstExisting_eq_findP]
  · intro s hs hall
    simp [resolvePhoto, hs, firstExisting_eq_findP]
    exact hall

theorem C8_witness :
    resolvePhoto (fun p => p == "photos/abc.png") "photos" (some "abc") none =
      some "photos/abc.png" := by
  have h := (C8_photo_resolution (fun p => p == "photos/abc.png") "photos"
      (some "abc") none).2.1 "abc" rfl (by decide)
  exact h.trans (by decide)

/-- C9: the date-range heading is computed from the minimum and
maximum (by instant) of the entries the resolver successfully parsed
into `dates`; when that list is empty — in particular when no entry
timestamp parsed — it is the fixed phrase "No date information". -/
theorem C9_date_range_heading (tzdb : String → Option (Int → Int))
    (entries : List (String × Option String)) :
    (collectDates tzdb entries = [] →
        dateRangeStr (collectDates tzdb entries) = "No date information") ∧
      (∀ d0 rest, collectDates tzdb entries = d0 :: rest →
        ∃ mn mx, mn ∈ collectDates tzdb entries ∧ mx ∈ collectDates tzdb entries ∧
          (∀ d ∈ collectDates tzdb entries, mn.epoch ≤ d.epoch ∧ d.epoch ≤ mx.epoch) ∧
          dateRangeStr (collectDates tzdb entries) =
            "from " ++ strftimeDMY (localCivil mn) ++ " to " ++
              strftimeDMY (localCivil mx)) := by
  constructor
  · intro h; rw [h]; rfl
  · intro d0 rest h
    refine ⟨pyMinAux d0 rest, pyMaxAux d0 rest, ?_, ?_, ?_, ?_⟩
    · rw [h]
      rcases pyMinAux_mem rest d0 with he | he
      · rw [he]; exact List.mem_cons_self d0 rest
      · exact List.mem_cons_of_mem _ he
    · rw [h]
      rcases pyMaxAux_mem rest d0 with he | he
      · rw [he]; exact List.mem_cons_self d0 rest
      · exact List.mem_cons_of_mem _ he
    · intro d hd
      rw [h] at hd
      rcases List.mem_cons.mp hd with heq | hd
      · rw [heq]
        exact ⟨pyMinAux_le rest d0 d0 (Or.inl rfl), pyMaxAux_ge rest d0 d0 (Or.inl rfl)⟩
      · exact ⟨pyMinAux_le rest d0 d (Or.inr hd), pyMaxAux_ge rest d0 d (Or.inr hd)⟩
    · rw [h]; rfl

theorem C9_witness :
    collectDates (fun _ => none) [("garbage", none)] = [] ∧
      dateRangeStr (collectDates (fun _ => none) [("garbage", none)]) =
        "No date information" :=
  ⟨by decide, (C9_date_range_heading (fun _ => none) [("garbage", none)]).1 (by decide)⟩

/-- The `prev_blank` state after the loop of `normalize_list_boundaries`
has consumed the given lines, starting from state `pb` (source line
20). -/
def endState (pb : Bool) : List String → Bool
  | [] => pb
  | l :: rest => endState (isBlank l) rest

theorem endState_append (pb : Bool) (xs ys : List String) :
    endState pb (xs ++ ys) = endState (endState pb xs) ys := by
  induction xs generalizing pb with
  | nil => rfl
  | cons l xs ih => simp [endState, ih]

theorem normLoop_append (pb : Bool) (xs ys : List String) :
    normLoop pb (xs ++ ys) = normLoop pb xs ++ normLoop (endState pb xs) ys := by
  induction xs generalizing pb with
  | nil => rfl
  | cons l xs ih => simp [normLoop, endState, ih]

theorem listItem_not_blank (l : String) (h : isListItem l = true) :
    isBlank l = false := by
  cases hb : isBlank l with
  | false => rfl
  | true =>
    exfalso
    have hall : ∀ c ∈ l.data, pyIsSpace c = true := List.all_eq_true.mp hb
    have hdrop : l.data.dropWhile pyIsSpace = [] :=
      List.dropWhile_eq_nil_iff.mpr hall
    simp only [isListItem, hdrop] at h
    exact Bool.noConfusion h

/-- C5: a list item line `b` that in the input immediately follows a
non-blank, non-list line `a` is preceded in the output by exactly one
inserted blank line: around that position the output lines read
`..., a, "", b, ...`, with everything before produced from the lines
before `a` and everything after from the lines after `b`. -/
theorem C5_one_blank_inserted (x : String) (xs : List String) (a b : String)
    (ys : List String) (hsplit : splitlines x = xs ++ a :: b :: ys)
    (hnb : isBlank a = false) (hnl : isListItem a = false)
    (hli : isListItem b = true) :
    normalize_list_boundaries x =
      joinLines (ensureTrailing
        (normLoop true xs ++ a :: "" :: b :: normLoop (isBlank b) ys)) := by
  rw [normalize_list_boundaries, hsplit, normLoop_append]
  simp [normLoop, hnl, hnb, hli]

theorem C5_witness :
    normalize_list_boundaries "text\n- item" = "text\n\n- item\n" := by
  have h := C5_one_blank_inserted "text\n- item" [] "text" "- item" []
    (by decide) (by decide) (by decide) (by decide)
  exact h.trans (by decide)

/-- C10: the insertion also applies between two consecutive list item
lines with no blank line between them in the input: the second of the
two gets one inserted blank line before it. -/
theorem C10_consecutive_list_items (x : String) (xs : List String) (a b : String)
    (ys : List String) (hsplit : splitlines x = xs ++ a :: b :: ys)
    (ha : isListItem a = true) (hb : isListItem b = true) :
    normalize_list_boundaries x =
      joinLines (ensureTrailing
        (normLoop true (xs ++ [a]) ++ "" :: b :: normLoop (isBlank b) ys)) := by
  have hxs : xs ++ a :: b :: ys = (xs ++ [a]) ++ b :: ys := by simp
  rw [normalize_list_boundaries, hsplit, hxs, normLoop_append,
    endState_append]
  have hst : endState (endState true xs) [a] = isBlank a := rfl
  rw [hst, listItem_not_blank a ha]
  simp [normLoop, hb]

theorem C10_witness :
    normalize_list_boundaries "- a\n- b" = "- a\n\n- b\n" := by
  have h := C10_consecutive_list_items "- a\n- b" [] "- a" "- b" []
    (by decide) (by decide) (by decide)
  exact h.trans (by decide)

/-- A string free of line-break characters — the invariant of every
line produced by `splitlines` and of the inserted empty lines. -/
def noBreak (l : String) : Bool :=
  l.data.all (fun c => !isLineBreakChar c)

/-- Drop the one final empty line that `splitlines` does not report
when a string ends in a line break. -/
def stripLastEmpty : List String → List String
  | [] => []
  | [l] => if l = "" then [] else [l]
  | l :: l2 :: rest => l :: stripLastEmpty (l2 :: rest)

/-- The last two lines both are the empty string. -/
def lastTwoEmpty : List String → Bool
  | [a, b] => a == "" && b == ""
  | _ :: l2 :: rest => lastTwoEmpty (l2 :: rest)
  | _ => false

/-- The last line is the empty string. -/
def endsEmpty : List String → Bool
  | [] => false
  | [l] => l == ""
  | _ :: l2 :: rest => endsEmpty (l2 :: rest)

/-- Every list item line is preceded by a blank line (the flag plays
the role of "the previous line was blank"); on such line lists the
normalizer's loop inserts nothing. -/
def normalizedB : Bool → List String → Bool
  | _, [] => true
  | pb, l :: rest => (!(isListItem l) || pb) && normalizedB (isBlank l) rest

theorem noBreak_iff (l : String) :
    noBreak l = true ↔ ∀ c ∈ l.data, isLineBreakChar c = false := by
  simp [noBreak, List.all_eq_true]

theorem string_mk_data (s : String) : String.mk s.data = s := rfl

theorem splitlinesAux_nil (acc : List Char) :
    splitlinesAux [] acc = if acc.isEmpty then [] else [acc.reverse] := rfl

theorem splitlinesAux_crlf (rest acc : List Char) :
    splitlinesAux ('\r' :: '\n' :: rest) acc =
      acc.reverse :: splitlinesAux rest [] := rfl

theorem splitlinesAux_cons (c : Char) (rest acc : List Char)
    (hshape : ∀ rest2, c = '\r' → rest = '\n' :: rest2 → False) :
    splitlinesAux (c :: rest) acc =
      if isLineBreakChar c then acc.reverse :: splitlinesAux rest []
      else splitlinesAux rest (c :: acc) := by
  rw [splitlinesAux.eq_def]
  split
  · rename_i heq
    exact absurd heq (by simp)
  · rename_i heq
    injection heq with h1 h2
    exact (hshape _ h1 h2).elim
  · rename_i hsh heq
    injection heq with h1 h2
    subst h1; subst h2; rfl

theorem splitlinesAux_noBreak (cs acc : List Char) :
    (∀ c ∈ acc, isLineBreakChar c = false) →
      ∀ l ∈ splitlinesAux cs acc, ∀ c ∈ l, isLineBreakChar c = false := by
  induction cs, acc using splitlinesAux.induct with
  | case1 acc hempty =>
    intro hacc l hl
    rw [splitlinesAux_nil, if_pos hempty] at hl
    exact absurd hl (List.not_mem_nil l)
  | case2 acc hempty =>
    intro hacc l hl
    rw [splitlinesAux_nil, if_neg hempty] at hl
    have hle : l = acc.reverse := by simpa using hl
    subst hle
    intro c hc
    exact hacc c (List.mem_reverse.mp hc)
  | case3 rest acc ih =>
    intro hacc l hl
    rw [splitlinesAux_crlf] at hl
    rcases List.mem_cons.mp hl with he | hl
    · subst he; intro c hc; exact hacc c (List.mem_reverse.mp hc)
    · exact ih (by intro c hc; exact absurd hc (List.not_mem_nil c)) l hl
  | case4 c rest acc hshape hbreak ih =>
    intro hacc l hl
    rw [splitlinesAux_cons c rest acc hshape, if_pos hbreak] at hl
    rcases List.mem_cons.mp hl with he | hl
    · subst he; intro d hd; exact hacc d (List.mem_reverse.mp hd)
    · exact ih (by intro d hd; exact absurd hd (List.not_mem_nil d)) l hl
  | case5 c rest acc hshape hbreak ih =>
    intro hacc l hl
    rw [splitlinesAux_cons c rest acc hshape,
      if_neg (by simpa using hbreak)] at hl
    refine ih ?_ l hl
    intro d hd
    rcases List.mem_cons.mp hd with he | hd
    · subst he; simpa using hbreak
    · exact hacc d hd

theorem splitlines_noBreak (s : String) : ∀ l ∈ splitlines s, noBreak l = true := by
  intro l hl
  rw [splitlines] at hl
  rcases List.mem_map.mp hl with ⟨cs, hcs, hmk⟩
  subst hmk
  rw [noBreak_iff]
  intro c hc
  exact splitlinesAux_noBreak s.data []
    (by intro d hd; exact absurd hd (List.not_mem_nil d)) cs hcs c hc

theorem splitlinesAux_push (cs : List Char) : ∀ acc rest : List Char,
    (∀ c ∈ cs, isLineBreakChar c = false) →
    splitlinesAux (cs ++ '\n' :: rest) acc =
      (acc.reverse ++ cs) :: splitlinesAux rest [] := by
  induction cs with
  | nil =>
    intro acc rest h
    rw [List.nil_append,
      splitlinesAux_cons '\n' rest acc
        (by intro r2 he _; exact absurd he (by decide)),
      if_pos (by decide)]
    simp
  | cons c cs ih =>
    intro acc rest h
    have hc : isLineBreakChar c = false := h c (List.mem_cons_self c cs)
    have hshape : ∀ r2, c = '\r' → cs ++ '\n' :: rest = '\n' :: r2 → False := by
      intro r2 he _
      rw [he] at hc
      exact absurd hc (by decide)
    rw [List.cons_append, splitlinesAux_cons c _ acc hshape,
      if_neg (by simp [hc]),
      ih (c :: acc) rest (fun d hd => h d (List.mem_cons_of_mem c hd))]
    simp

theorem splitlinesAux_all_noBreak (cs : List Char) : ∀ acc : List Char,
    (∀ c ∈ cs, isLineBreakChar c = false) →
    splitlinesAux cs acc =
      if (acc.reverse ++ cs).isEmpty then [] else [acc.reverse ++ cs] := by
  induction cs with
  | nil =>
    intro acc h
    rw [splitlinesAux_nil]
    cases acc <;> simp
  | cons c cs ih =>
    intro acc h
    have hc : isLineBreakChar c = false := h c (List.mem_cons_self c cs)
    have hshape : ∀ r2, c = '\r' → cs = '\n' :: r2 → False := by
      intro r2 he _
      rw [he] at hc
      exact absurd hc (by decide)
    rw [splitlinesAux_cons c cs acc hshape, if_neg (by simp [hc]),
      ih (c :: acc) (fun d hd => h d (List.mem_cons_of_mem c hd))]
    simp

theorem splitlines_append_line (l t : String) (h : noBreak l = true) :
    splitlines (l ++ "\n" ++ t) = l :: splitlines t := by
  have hn : ("\n" : String).data = ['\n'] := rfl
  have hdata : (l ++ "\n" ++ t).data = l.data ++ '\n' :: t.data := by
    simp [String.data_append, hn]
  rw [splitlines, hdata,
    splitlinesAux_push l.data [] t.data ((noBreak_iff l).mp h)]
  simp [splitlines, string_mk_data]

theorem splitlines_joinLines (out : List String) :
    (∀ l ∈ out, noBreak l = true) →
    splitlines (joinLines out) = stripLastEmpty out := by
  induction out with
  | nil => intro h; rfl
  | cons l rest ih =>
    intro h
    cases rest with
    | nil =>
      have hl : noBreak l = true := h l (List.mem_cons_self l [])
      show splitlines (joinLines [l]) = stripLastEmpty [l]
      rw [show joinLines [l] = l from rfl, splitlines,
        splitlinesAux_all_noBreak l.data [] ((noBreak_iff l).mp hl)]
      by_cases he : l = ""
      · subst he; simp [stripLastEmpty]
      · have hd : l.data ≠ [] := by
          intro hd
          apply he
          have := congrArg String.mk hd
          simpa [string_mk_data] using this
        simp [stripLastEmpty, he, hd, string_mk_data]
    | cons l2 rest2 =>
      have hl : noBreak l = true := h l (List.mem_cons_self l (l2 :: rest2))
      show splitlines (l ++ "\n" ++ joinLines (l2 :: rest2)) =
        l :: stripLastEmpty (l2 :: rest2)
      rw [splitlines_append_line l _ hl,
        ih (fun d hd => h d (List.mem_cons_of_mem l hd))]

theorem normLoop_of_normalized (ls : List String) : ∀ pb,
    normalizedB pb ls = true → normLoop pb ls = ls := by
  induction ls with
  | nil => intro pb h; rfl
  | cons l rest ih =>
    intro pb h
    simp only [normalizedB, Bool.and_eq_true] at h
    have hcond : (isListItem l && !pb) = false := by
      have h1 := h.1
      cases hli : isListItem l <;> cases hpb : pb <;> simp_all
    simp only [normLoop, hcond, Bool.false_eq_true, if_false,
      List.singleton_append, ih (isBlank l) h.2]

theorem normLoop_normalized (ls : List String) : ∀ pb,
    normalizedB pb (normLoop pb ls) = true := by
  induction ls with
  | nil => intro pb; rfl
  | cons l rest ih =>
    intro pb
    have hinil : isListItem "" = false := by decide
    have hbnil : isBlank "" = true := by decide
    by_cases hc : (isListItem l && !pb) = true
    · simp only [normLoop, hc, if_true, List.cons_append, List.nil_append]
      simp only [normalizedB, hinil, hbnil, Bool.and_eq_true]
      refine ⟨by simp, by simp, ih (isBlank l)⟩
    · simp only [normLoop, hc, if_false, List.singleton_append]
      simp only [normalizedB, Bool.and_eq_true]
      refine ⟨?_, ih (isBlank l)⟩
      cases hli : isListItem l <;> cases hpb : pb <;> simp_all

theorem normalizedB_append_left (ls : List String) : ∀ (ls2 : List String) (pb : Bool),
    normalizedB pb (ls ++ ls2) = true → normalizedB pb ls = true := by
  induction ls with
  | nil => intro ls2 pb h; rfl
  | cons l rest ih =>
    intro ls2 pb h
    simp only [List.cons_append, normalizedB, Bool.and_eq_true] at h ⊢
    exact ⟨h.1, ih ls2 _ h.2⟩

theorem normalizedB_cons (pb : Bool) (l : String) (rest : List String) :
    normalizedB pb (l :: rest) =
      ((!(isListItem l) || pb) && normalizedB (isBlank l) rest) := rfl

theorem normalizedB_ensureTrailing (ls : List String) : ∀ pb,
    normalizedB pb ls = true → normalizedB pb (ensureTrailing ls) = true := by
  induction ls with
  | nil => intro pb h; exact h
  | cons l rest ih =>
    intro pb h
    cases rest with
    | nil =>
      by_cases he : l = ""
      · simp only [ensureTrailing, if_pos he]
        exact h
      · simp only [ensureTrailing, if_neg he]
        rw [normalizedB_cons, Bool.and_eq_true] at h ⊢
        refine ⟨h.1, ?_⟩
        rw [normalizedB_cons, Bool.and_eq_true]
        have : isListItem "" = false := by decide
        exact ⟨by simp [this], rfl⟩
    | cons l2 rest2 =>
      simp only [ensureTrailing]
      rw [normalizedB_cons, Bool.and_eq_true] at h ⊢
      exact ⟨h.1, ih _ h.2⟩

theorem normalizedB_stripLastEmpty (ls : List String) : ∀ pb,
    normalizedB pb ls = true → normalizedB pb (stripLastEmpty ls) = true := by
  induction ls with
  | nil => intro pb h; exact h
  | cons l rest ih =>
    intro pb h
    cases rest with
    | nil =>
      by_cases he : l = ""
      · simp only [stripLastEmpty, if_pos he]
        rfl
      · simp only [stripLastEmpty, if_neg he]
        exact h
    | cons l2 rest2 =>
      simp only [stripLastEmpty]
      rw [normalizedB_cons, Bool.and_eq_true] at h ⊢
      exact ⟨h.1, ih _ h.2⟩

theorem lastTwoEmpty_cons3 (a b c : String) (rest : List String) :
    lastTwoEmpty (a :: b :: c :: rest) = lastTwoEmpty (b :: c :: rest) := rfl

theorem exists_cons_cons (l : List String) (h : 2 ≤ l.length) :
    ∃ b c rest, l = b :: c :: rest := by
  cases l with
  | nil => simp at h
  | cons b t =>
    cases t with
    | nil => simp at h
    | cons c rest => exact ⟨b, c, rest, rfl⟩

theorem lastTwoEmpty_append (xs : List String) : ∀ ys : List String,
    2 ≤ ys.length → lastTwoEmpty (xs ++ ys) = lastTwoEmpty ys := by
  induction xs with
  | nil => intro ys hy; rfl
  | cons a xs ih =>
    intro ys hy
    rw [List.cons_append]
    have h2 : 2 ≤ (xs ++ ys).length := by
      have : ys.length ≤ (xs ++ ys).length := by simp
      omega
    obtain ⟨b, c, rest, hsh⟩ := exists_cons_cons (xs ++ ys) h2
    rw [hsh, lastTwoEmpty_cons3, ← hsh, ih ys hy]

theorem normLoop_length (ls : List String) : ∀ pb,
    ls.length ≤ (normLoop pb ls).length := by
  induction ls with
  | nil => intro pb; simp [normLoop]
  | cons l rest ih =>
    intro pb
    have h := ih (isBlank l)
    by_cases hc : (isListItem l && !pb) = true <;>
      simp [normLoop, hc, List.length_append] <;> omega

theorem lastTwoEmpty_normLoop (ls : List String) : ∀ pb,
    lastTwoEmpty (normLoop pb ls) = true → lastTwoEmpty ls = true := by
  induction ls with
  | nil =>
    intro pb h
    exact h
  | cons l rest ih =>
    intro pb h
    cases rest with
    | nil =>
      exfalso
      by_cases hc : (isListItem l && !pb) = true
      · rw [show normLoop pb [l] = ["", l] ++ normLoop (isBlank l) [] by
          simp [normLoop, hc]] at h
        have hl : l = "" := by
          simp [normLoop, lastTwoEmpty] at h
          exact h
        rw [hl] at hc
        have : isListItem "" = false := by decide
        simp [this] at hc
      · rw [show normLoop pb [l] = [l] ++ normLoop (isBlank l) [] by
          simp [normLoop, hc]] at h
        simp [normLoop, lastTwoEmpty] at h
    | cons l2 rest2 =>
      have hstep : normLoop pb (l :: l2 :: rest2) =
          (if isListItem l && !pb then ["", l] else [l]) ++
            normLoop (isBlank l) (l2 :: rest2) := rfl
      cases rest2 with
      | nil =>
        by_cases hc2 : (isListItem l2 && !(isBlank l)) = true
        · exfalso
          have ht : normLoop (isBlank l) [l2] = ["", l2] := by simp [normLoop, hc2]
          rw [hstep, ht] at h
          have hl2 : l2 = "" := by
            by_cases hc : (isListItem l && !pb) = true <;>
              simp [hc, lastTwoEmpty] at h <;> exact h
          rw [hl2] at hc2
          have : isListItem "" = false := by decide
          simp [this] at hc2
        · have ht : normLoop (isBlank l) [l2] = [l2] := by simp [normLoop, hc2]
          rw [hstep, ht] at h
          by_cases hc : (isListItem l && !pb) = true
          · exfalso
            simp [hc, lastTwoEmpty] at h
            have hl : l = "" := h.1
            rw [hl] at hc
            have : isListItem "" = false := by decide
            simp [this] at hc
          · simp [hc, lastTwoEmpty] at h ⊢
            exact h
      | cons l3 rest3 =>
        have hlen : 2 ≤ (normLoop (isBlank l) (l2 :: l3 :: rest3)).length := by
          have := normLoop_length (l2 :: l3 :: rest3) (isBlank l)
          simp at this
          omega
        rw [hstep, lastTwoEmpty_append _ _ hlen] at h
        rw [lastTwoEmpty_cons3]
        exact ih (isBlank l) h

theorem ensureTrailing_cons (a : String) (ls : List String) (h : ls ≠ []) :
    ensureTrailing (a :: ls) = a :: ensureTrailing ls := by
  cases ls with
  | nil => exact absurd rfl h
  | cons b t => rfl

theorem lastTwoEmpty_ensureTrailing (ls : List String) :
    lastTwoEmpty (ensureTrailing ls) = true → lastTwoEmpty ls = true := by
  induction ls with
  | nil => intro h; exact h
  | cons l rest ih =>
    intro h
    cases rest with
    | nil =>
      exfalso
      by_cases he : l = ""
      · rw [show ensureTrailing [l] = [l] by simp [ensureTrailing, he]] at h
        simp [lastTwoEmpty] at h
      · rw [show ensureTrailing [l] = [l, ""] by simp [ensureTrailing, he]] at h
        simp [lastTwoEmpty] at h
        exact he h
    | cons l2 rest2 =>
      rw [ensureTrailing_cons l (l2 :: rest2) (by simp)] at h
      cases rest2 with
      | nil =>
        by_cases he : l2 = ""
        · rw [show ensureTrailing [l2] = [l2] by simp [ensureTrailing, he]] at h
          exact h
        · exfalso
          rw [show ensureTrailing [l2] = [l2, ""] by simp [ensureTrailing, he]] at h
          rw [lastTwoEmpty_cons3] at h
          simp [lastTwoEmpty] at h
          exact he h
      | cons l3 rest3 =>
        have hshape : ensureTrailing (l2 :: l3 :: rest3) =
            l2 :: ensureTrailing (l3 :: rest3) := rfl
        have hne : ensureTrailing (l3 :: rest3) ≠ [] := by
          cases l3r : ensureTrailing (l3 :: rest3) with
          | nil =>
            exfalso
            cases rest3 with
            | nil =>
              by_cases he : l3 = "" <;> simp [ensureTrailing, he] at l3r
            | cons l4 rest4 =>
              rw [ensureTrailing_cons l3 (l4 :: rest4) (by simp)] at l3r
              simp at l3r
          | cons x xs => simp
        obtain ⟨b, c, r2, hbc⟩ := exists_cons_cons (ensureTrailing (l2 :: l3 :: rest3))
          (by
            rw [hshape]
            cases hx : ensureTrailing (l3 :: rest3) with
            | nil => exact absurd hx hne
            | cons x xs => simp)
        rw [hbc, lastTwoEmpty_cons3, ← hbc] at h
        rw [lastTwoEmpty_cons3]
        exact ih h

theorem ensureTrailing_ne_nil (ls : List String) (h : ls ≠ []) :
    ensureTrailing ls ≠ [] := by
  cases ls with
  | nil => exact absurd rfl h
  | cons l rest =>
    cases rest with
    | nil => by_cases he : l = "" <;> simp [ensureTrailing, he]
    | cons l2 rest2 =>
      rw [ensureTrailing_cons l (l2 :: rest2) (by simp)]
      simp

theorem ensureTrailing_endsEmpty (ls : List String) :
    ls ≠ [] → endsEmpty (ensureTrailing ls) = true := by
  induction ls with
  | nil => intro h; exact absurd rfl h
  | cons l rest ih =>
    intro _
    cases rest with
    | nil =>
      by_cases he : l = ""
      · simp [ensureTrailing, he, endsEmpty]
      · rw [show ensureTrailing [l] = [l, ""] by simp [ensureTrailing, he]]
        simp [endsEmpty]
    | cons l2 rest2 =>
      rw [ensureTrailing_cons l (l2 :: rest2) (by simp)]
      obtain ⟨y, ys, hy⟩ : ∃ y ys, ensureTrailing (l2 :: rest2) = y :: ys := by
        cases hE : ensureTrailing (l2 :: rest2) with
        | nil => exact absurd hE (ensureTrailing_ne_nil (l2 :: rest2) (by simp))
        | cons y ys => exact ⟨y, ys, rfl⟩
      rw [hy, show endsEmpty (l :: y :: ys) = endsEmpty (y :: ys) from rfl, ← hy]
      exact ih (by simp)

theorem ensureTrailing_stripLastEmpty (out : List String) :
    2 ≤ out.length → endsEmpty out = true → lastTwoEmpty out = false →
    ensureTrailing (stripLastEmpty out) = out := by
  induction out with
  | nil => intro h2 _ _; simp at h2
  | cons a rest ih =>
    intro h2 hee hlt
    cases rest with
    | nil => simp at h2
    | cons b rest2 =>
      cases rest2 with
      | nil =>
        have hb : b = "" := by simpa [endsEmpty] using hee
        subst hb
        have ha : ¬(a = "") := by
          simp [lastTwoEmpty] at hlt
          exact hlt
        rw [show stripLastEmpty [a, ""] = a :: stripLastEmpty [""] from rfl,
          show stripLastEmpty [""] = ([] : List String) by simp [stripLastEmpty]]
        simp [ensureTrailing, ha]
      | cons c rest3 =>
        have hee2 : endsEmpty (b :: c :: rest3) = true := hee
        have hlt2 : lastTwoEmpty (b :: c :: rest3) = false := by
          rw [lastTwoEmpty_cons3] at hlt; exact hlt
        have hih := ih (by simp) hee2 hlt2
        rw [show stripLastEmpty (a :: b :: c :: rest3) =
            a :: stripLastEmpty (b :: c :: rest3) from rfl,
          show stripLastEmpty (b :: c :: rest3) =
            b :: stripLastEmpty (c :: rest3) from rfl,
          ensureTrailing_cons a _ (by simp),
          show (b :: stripLastEmpty (c :: rest3)) =
            stripLastEmpty (b :: c :: rest3) from rfl,
          hih]

theorem normLoop_mem (ls : List String) : ∀ pb l, l ∈ normLoop pb ls →
    l = "" ∨ l ∈ ls := by
  induction ls with
  | nil => intro pb l hl; exact absurd hl (List.not_mem_nil l)
  | cons a rest ih =>
    intro pb l hl
    by_cases hc : (isListItem a && !pb) = true
    · rw [show normLoop pb (a :: rest) = ["", a] ++ normLoop (isBlank a) rest by
        simp [normLoop, hc]] at hl
      rcases List.mem_append.mp hl with hl | hl
      · rcases List.mem_cons.mp hl with he | hl
        · exact Or.inl he
        · have hla : l = a := by simpa using hl
          exact Or.inr (hla ▸ List.mem_cons_self a rest)
      · rcases ih (isBlank a) l hl with he | hm
        · exact Or.inl he
        · exact Or.inr (List.mem_cons_of_mem a hm)
    · rw [show normLoop pb (a :: rest) = [a] ++ normLoop (isBlank a) rest by
        simp [normLoop, hc]] at hl
      rcases List.mem_append.mp hl with hl | hl
      · have hla : l = a := by simpa using hl
        exact Or.inr (hla ▸ List.mem_cons_self a rest)
      · rcases ih (isBlank a) l hl with he | hm
        · exact Or.inl he
        · exact Or.inr (List.mem_cons_of_mem a hm)

theorem ensureTrailing_mem (ls : List String) : ∀ l, l ∈ ensureTrailing ls →
    l = "" ∨ l ∈ ls := by
  induction ls with
  | nil => intro l hl; exact absurd hl (List.not_mem_nil l)
  | cons a rest ih =>
    intro l hl
    cases rest with
    | nil =>
      by_cases he : a = ""
      · rw [show ensureTrailing [a] = [a] by simp [ensureTrailing, he]] at hl
        exact Or.inr hl
      · rw [show ensureTrailing [a] = [a, ""] by simp [ensureTrailing, he]] at hl
        rcases List.mem_cons.mp hl with h1 | hl
        · exact Or.inr (h1 ▸ List.mem_cons_self a [])
        · have : l = "" := by simpa using hl
          exact Or.inl this
    | cons b rest2 =>
      rw [ensureTrailing_cons a (b :: rest2) (by simp)] at hl
      rcases List.mem_cons.mp hl with h1 | hl
      · exact Or.inr (h1 ▸ List.mem_cons_self a (b :: rest2))
      · rcases ih l hl with he | hm
        · exact Or.inl he
        · exact Or.inr (List.mem_cons_of_mem a hm)

/-- C1 (amended): the list-boundary normalizer is idempotent for every
input string whose line split does not end in two consecutive empty
lines.  (When it does, each application drops one of the trailing
blank lines — see the counterexample — so idempotence fails there.) -/
theorem C1_idempotent_amended (x : String)
    (h : lastTwoEmpty (splitlines x) = false) :
    normalize_list_boundaries (normalize_list_boundaries x) =
      normalize_list_boundaries x := by
  have hnb0 : noBreak "" = true := by decide
  have hmem : ∀ l ∈ ensureTrailing (normLoop true (splitlines x)), noBreak l = true := by
    intro l hl
    rcases ensureTrailing_mem _ l hl with he | hm
    · rw [he]; exact hnb0
    · rcases normLoop_mem _ true l hm with he | hm2
      · rw [he]; exact hnb0
      · exact splitlines_noBreak x l hm2
  have key : ∀ out : List String, (∀ l ∈ out, noBreak l = true) →
      normalizedB true out = true →
      (out = [] ∨ endsEmpty out = true) →
      lastTwoEmpty out = false →
      normalize_list_boundaries (joinLines out) = joinLines out := by
    intro out hnb hnorm hends hlt
    show joinLines (ensureTrailing (normLoop true (splitlines (joinLines out)))) =
      joinLines out
    rw [splitlines_joinLines out hnb,
      normLoop_of_normalized _ true (normalizedB_stripLastEmpty out true hnorm)]
    rcases out with _ | ⟨a, rest⟩
    · rfl
    rcases hends with he | hee
    · exact absurd he (by simp)
    rcases rest with _ | ⟨b, rest2⟩
    · have ha : a = "" := by simpa [endsEmpty] using hee
      subst ha
      rw [show stripLastEmpty [""] = ([] : List String) by simp [stripLastEmpty]]
      rfl
    · rw [ensureTrailing_stripLastEmpty (a :: b :: rest2) (by simp) hee hlt]
  show normalize_list_boundaries
    (joinLines (ensureTrailing (normLoop true (splitlines x)))) = _
  apply key
  · exact hmem
  · exact normalizedB_ensureTrailing _ true (normLoop_normalized (splitlines x) true)
  · cases hnl : normLoop true (splitlines x) with
    | nil => left; rfl
    | cons a rest =>
      right
      exact ensureTrailing_endsEmpty _ (by simp)
  · cases hlt : lastTwoEmpty (ensureTrailing (normLoop true (splitlines x))) with
    | false => rfl
    | true =>
      exfalso
      have h1 := lastTwoEmpty_ensureTrailing _ hlt
      have h2 := lastTwoEmpty_normLoop _ true h1
      rw [h] at h2
      exact Bool.noConfusion h2

/-- C1 counterexample: the normalizer is not idempotent as claimed —
on the input consisting of two newlines the first application yields a
single newline and the second application yields the empty string. -/
theorem C1_counterexample :
    normalize_list_boundaries (normalize_list_boundaries "\n\n") ≠
      normalize_list_boundaries "\n\n" := by decide

theorem C1_witness :
    lastTwoEmpty (splitlines "para\n- a") = false ∧
      normalize_list_boundaries (normalize_list_boundaries "para\n- a") =
        normalize_list_boundaries "para\n- a" :=
  ⟨by decide, C1_idempotent_amended "para\n- a" (by decide)⟩

theorem joinLines_endsEmpty (out : List String) :
    endsEmpty out = true →
    joinLines out = "" ∨ ∃ t : String, joinLines out = t ++ "\n" := by
  induction out with
  | nil => intro h; exact Bool.noConfusion h
  | cons l rest ih =>
    cases rest with
    | nil =>
      intro h
      have hl : l = "" := by simpa [endsEmpty] using h
      subst hl
      exact Or.inl rfl
    | cons l2 rest2 =>
      intro h
      have h2 : endsEmpty (l2 :: rest2) = true := h
      have hj : joinLines (l :: l2 :: rest2) = l ++ "\n" ++ joinLines (l2 :: rest2) := rfl
      rcases ih h2 with he | ⟨t, ht⟩
      · refine Or.inr ⟨l, ?_⟩
        rw [hj, he, String.append_empty]
      · refine Or.inr ⟨l ++ "\n" ++ t, ?_⟩
        rw [hj, ht, String.append_assoc, String.append_assoc, String.append_assoc]

/-- Segments of a string split at every newline character, keeping
empty segments and the final segment — the notion of "lines" under
which a string that ends with a newline "ends with a blank line". -/
def splitSegs : List Char → List Char → List String
  | [], acc => [String.mk acc.reverse]
  | c :: rest, acc =>
    if c = '\n' then String.mk acc.reverse :: splitSegs rest []
    else splitSegs rest (c :: acc)

/-- The last segment is empty and the one before it (if any) is not —
the reading of "ends with a SINGLE trailing blank line". -/
def endsSingleEmpty : List String → Bool
  | [l] => l == ""
  | [l, l2] => !(l == "") && l2 == ""
  | _ :: rest => endsSingleEmpty rest
  | [] => false

/-- The claim's property "the string ends with a single trailing blank
line": among its newline-separated segments, exactly the last is empty
at the end. -/
def lastLineBlankOnce (s : String) : Bool :=
  endsSingleEmpty (splitSegs s.data [])

/-- C4 (amended): the normalizer's result always ends with a trailing
blank line — it is the empty string or ends with a newline — but not
necessarily a SINGLE one: when the input ends with several blank
lines, all but one survive, so the output can end with two or more
blank lines; and the normalizer maps the empty string to the empty
string. -/
theorem C4_trailing_blank_amended :
    (∀ x : String, normalize_list_boundaries x = "" ∨
        ∃ t : String, normalize_list_boundaries x = t ++ "\n") ∧
      normalize_list_boundaries "" = "" := by
  constructor
  · intro x
    cases hnl : normLoop true (splitlines x) with
    | nil =>
      left
      show joinLines (ensureTrailing (normLoop true (splitlines x))) = ""
      rw [hnl]
      rfl
    | cons a rest =>
      have hee : endsEmpty (ensureTrailing (normLoop true (splitlines x))) = true := by
        rw [hnl]
        exact ensureTrailing_endsEmpty _ (by simp)
      exact joinLines_endsEmpty _ hee
  · rfl

/-- C4 counterexample: on the input "a" followed by three newlines the
normalizer returns "a" followed by two newlines, which ends with two
blank lines, not a single one — while a correct single-blank-line
ending (such as that of "a" plus one newline) satisfies the
property. -/
theorem C4_counterexample :
    normalize_list_boundaries "a\n\n\n" = "a\n\n" ∧
      lastLineBlankOnce (normalize_list_boundaries "a\n\n\n") = false ∧
      lastLineBlankOnce "a\n" = true := by
  refine ⟨by decide, by decide, by decide⟩
